import Mathlib

/-!
# Verification of the labrat experiment-harness core

A shallow embedding of the core of the `labrat` crate (`src/lib.rs`), together
with proofs of the specification's claims about it.  Machine integers (`u64`,
`usize`, `u32`) are modelled as `Nat` with explicit `% 2^w` truncation where
overflow can occur.  Filesystem state is modelled explicitly as a value passed
through the operations.  External collaborator crates (`sha2`, `base_62`,
`serde_json`, `clap`) are not part of the repository's sources; where a claim
depends on their behaviour the corresponding definition is modelled from the
specification's description of the collaborator (each such definition says so
in its doc comment).
-/

namespace Labrat

/-! ## SHA-224 (FIPS 180-4)

Modelled from the spec: the Identity Engine computes `SHA-224(canonical_json(value))`
(`src/lib.rs` line 163 calls into the external `sha2` crate, whose source is not part
of this repository).  The definitions below implement SHA-224 as published in
FIPS 180-4, operating on lists of bytes (each a `Nat < 256`), with 32-bit words
as `Nat` truncated by `% 2^32`. -/

/-- Truncate to a 32-bit word. -/
def w32 (n : Nat) : Nat := n % 4294967296

/-- 32-bit right-rotation by `b` (for `n < 2^32`, `b ≤ 32`). -/
def rotr32 (b n : Nat) : Nat := w32 ((n >>> b) ||| (n <<< (32 - b)))

/-- Bitwise complement within 32 bits. -/
def not32 (n : Nat) : Nat := n ^^^ 4294967295

/-- FIPS 180-4 `Σ₀`. -/
def bigSigma0 (x : Nat) : Nat := rotr32 2 x ^^^ rotr32 13 x ^^^ rotr32 22 x

/-- FIPS 180-4 `Σ₁`. -/
def bigSigma1 (x : Nat) : Nat := rotr32 6 x ^^^ rotr32 11 x ^^^ rotr32 25 x

/-- FIPS 180-4 `σ₀`. -/
def smallSigma0 (x : Nat) : Nat := rotr32 7 x ^^^ rotr32 18 x ^^^ (x >>> 3)

/-- FIPS 180-4 `σ₁`. -/
def smallSigma1 (x : Nat) : Nat := rotr32 17 x ^^^ rotr32 19 x ^^^ (x >>> 10)

/-- The 64 SHA-256 round constants of FIPS 180-4 §4.2.2 (the fractional parts
of the cube roots of the first 64 primes), written in decimal. -/
def shaK : List Nat :=
  [1116352408, 1899447441, 3049323471, 3921009573, 961987163, 1508970993,
   2453635748, 2870763221, 3624381080, 310598401, 607225278, 1426881987,
   1925078388, 2162078206, 2614888103, 3248222580, 3835390401, 4022224774,
   264347078, 604807628, 770255983, 1249150122, 1555081692, 1996064986,
   2554220882, 2821834349, 2952996808, 3210313671, 3336571891, 3584528711,
   113926993, 338241895, 666307205, 773529912, 1294757372, 1396182291,
   1695183700, 1986661051, 2177026350, 2456956037, 2730485921, 2820302411,
   3259730800, 3345764771, 3516065817, 3600352804, 4094571909, 275423344,
   430227734, 506948616, 659060556, 883997877, 958139571, 1322822218,
   1537002063, 1747873779, 1955562222, 2024104815, 2227730452, 2361852424,
   2428436474, 2756734187, 3204031479, 3329325298]

/-- The eight 32-bit words of SHA-2 working state. -/
structure Sha2State where
  a : Nat
  b : Nat
  c : Nat
  d : Nat
  e : Nat
  f : Nat
  g : Nat
  h : Nat
deriving Repr, DecidableEq

/-- SHA-224 initial hash value (FIPS 180-4 §5.3.2), in decimal. -/
def sha224Init : Sha2State :=
  ⟨3238371032, 914150663, 812702999, 4144912697,
   4290775857, 1750603025, 1694076839, 3204075428⟩

/-- Big-endian byte rendering of `n` in `k` bytes. -/
def beBytes (k : Nat) (n : Nat) : List Nat :=
  (List.range k).map (fun i => (n >>> (8 * (k - 1 - i))) % 256)

/-- FIPS 180-4 §5.1.1 message padding: append `0x80`, then zeros to 56 mod 64
bytes, then the bit length as an 8-byte big-endian integer. -/
def shaPad (msg : List Nat) : List Nat :=
  let L := msg.length
  let k := (120 - (L + 1) % 64) % 64
  msg ++ [0x80] ++ List.replicate k 0 ++ beBytes 8 (8 * L)

/-- Group bytes into big-endian 32-bit words. -/
def wordsOfBytes : List Nat → List Nat
  | b0 :: b1 :: b2 :: b3 :: rest =>
      (((b0 * 256 + b1) * 256 + b2) * 256 + b3) :: wordsOfBytes rest
  | _ => []

/-- Split a word list into 16-word blocks (fuelled structural recursion: each
step consumes at least one element, so the list's length is enough fuel). -/
def chunk16Aux : Nat → List Nat → List (List Nat)
  | _, [] => []
  | 0, _ => []
  | fuel + 1, ws => ws.take 16 :: chunk16Aux fuel (ws.drop 16)

/-- Split a word list into 16-word blocks. -/
def chunk16 (ws : List Nat) : List (List Nat) := chunk16Aux ws.length ws

/-- Extend a 16-word block into the 64-word message schedule (FIPS 180-4 §6.2.2 step 1). -/
def extendW (block : List Nat) : List Nat :=
  (List.range 48).foldl
    (fun w _ =>
      let t := w.length
      w ++ [w32 (smallSigma1 (w.getD (t - 2) 0) + w.getD (t - 7) 0 +
                 smallSigma0 (w.getD (t - 15) 0) + w.getD (t - 16) 0)])
    block

/-- One SHA-2 compression round (FIPS 180-4 §6.2.2 step 3); `kw` is the pair of
round constant and schedule word. -/
def shaRound (st : Sha2State) (kw : Nat × Nat) : Sha2State :=
  let ch := (st.e &&& st.f) ^^^ (not32 st.e &&& st.g)
  let maj := (st.a &&& st.b) ^^^ (st.a &&& st.c) ^^^ (st.b &&& st.c)
  let t1 := w32 (st.h + bigSigma1 st.e + ch + kw.1 + kw.2)
  let t2 := w32 (bigSigma0 st.a + maj)
  ⟨w32 (t1 + t2), st.a, st.b, st.c, w32 (st.d + t1), st.e, st.f, st.g⟩

/-- Process one 16-word block (FIPS 180-4 §6.2.2). -/
def processBlock (H : Sha2State) (block : List Nat) : Sha2State :=
  let w := extendW block
  let st := (shaK.zip w).foldl shaRound H
  ⟨w32 (H.a + st.a), w32 (H.b + st.b), w32 (H.c + st.c), w32 (H.d + st.d),
   w32 (H.e + st.e), w32 (H.f + st.f), w32 (H.g + st.g), w32 (H.h + st.h)⟩

/-- SHA-224 of a byte list: the first 28 bytes (7 words) of the final state. -/
def sha224 (msg : List Nat) : List Nat :=
  let fin := (chunk16 (wordsOfBytes (shaPad msg))).foldl processBlock sha224Init
  beBytes 4 fin.a ++ beBytes 4 fin.b ++ beBytes 4 fin.c ++ beBytes 4 fin.d ++
  beBytes 4 fin.e ++ beBytes 4 fin.f ++ beBytes 4 fin.g

/-! ## Base-62 encoding

Modelled from the spec: "encode `digest` using a base-62 alphabet (digits +
upper + lower, no padding, no separators)" (`src/lib.rs` line 165 calls the
external `base_62` crate, whose source is not part of this repository).  The
digest bytes are read as one big-endian natural number and written in base 62. -/

/-- The base-62 alphabet: digits, then upper case, then lower case. -/
def base62Alphabet : List Char :=
  "0123456789ABCDEFGHIJKLMNOPQRSTUVWXYZabcdefghijklmnopqrstuvwxyz".toList

/-- Read a byte list as a big-endian natural number. -/
def bytesToNat (bs : List Nat) : Nat := bs.foldl (fun acc b => acc * 256 + b) 0

/-- Base-62 digits, least significant first (fuelled structural recursion:
`n` itself always exceeds the number of base-62 digits of `n`). -/
def natToBase62Aux : Nat → Nat → List Char
  | _, 0 => []
  | 0, _ => []
  | fuel + 1, n => base62Alphabet.getD (n % 62) '0' :: natToBase62Aux fuel (n / 62)

/-- Base-62 digits of `n`, least significant first. -/
def natToBase62Rev (n : Nat) : List Char := natToBase62Aux n n

/-- Base-62 rendering of a byte list (most significant digit first, no padding,
no separators). -/
def base62Encode (bs : List Nat) : String := String.mk (natToBase62Rev (bytesToNat bs)).reverse

/-- Bytes of a string (the canonical JSON texts in question are ASCII, so each
character is one byte). -/
def strBytes (s : String) : List Nat := s.toList.map (fun c => c.toNat % 256)

/-- `id_from_serialised` (`src/lib.rs` lines 162–166): SHA-224 the serialized
form of the value, then base-62 encode the digest.  The serializer (the
external `serde_json::to_string`) is passed explicitly. -/
def id_from_serialised (serialize : α → String) (v : α) : String :=
  base62Encode (sha224 (strBytes (serialize v)))

/-! ## Resource Policy Normalizer (`src/lib.rs` lines 187–316) -/

/-- `usize` modulus: the target is 64-bit (the crate is Unix-only). -/
def USIZE : Nat := 18446744073709551616

/-- `MemoryAmount` (`src/lib.rs` lines 187–206): a number of megabytes in a `usize`. -/
structure MemoryAmount where
  mb : Nat
deriving Repr, DecidableEq

/-- `MemoryAmount::from_mb`. -/
def MemoryAmount.from_mb (amount : Nat) : MemoryAmount := ⟨amount % USIZE⟩

/-- `MemoryAmount::from_gb`: `amount * 1000` on `usize` (wrapping on overflow,
as in a release build). -/
def MemoryAmount.from_gb (amount : Nat) : MemoryAmount := ⟨amount * 1000 % USIZE⟩

/-! ### IEEE 754 binary64 rounding

`from_gb_f64` multiplies in `f64`, so the exact product is rounded to the
nearest representable binary64 value (round to nearest, ties to even) before
Rust `round()` runs.  The definitions below model that rounding exactly for
the finite range: a positive rational in binade `e` (so `2^e ≤ q < 2^(e+1)`,
with `e` clamped at `-1022` below which the subnormal grid applies) is rounded
onto the grid of multiples of `2^(e-52)`, ties to the even multiple.  Overflow
to infinity (beyond `2^1024`, far outside every statement in this file) is not
modelled.  The arithmetic is carried out on numerator and denominator
directly, which keeps every step executable. -/

/-- Floor of the base-2 logarithm of `n` (fuelled structural recursion; `n`
itself is always enough fuel). -/
def natLog2Aux : Nat → Nat → Nat
  | 0, _ => 0
  | fuel + 1, n => if n ≤ 1 then 0 else 1 + natLog2Aux fuel (n / 2)

/-- Floor of the base-2 logarithm of `n` (for `n ≥ 1`). -/
def natLog2 (n : Nat) : Nat := natLog2Aux n n

/-- The rational `2 ^ e` for a signed exponent, built with `mkRat`. -/
def pow2Q (e : ℤ) : ℚ :=
  if 0 ≤ e then mkRat (2 ^ e.toNat) 1 else mkRat 1 (2 ^ (-e).toNat)

/-- Nearest integer to `num / den` (for `den > 0`), ties to the even integer:
the rounding IEEE 754 applies to a scaled significand. -/
def roundTiesEvenInt (num den : ℤ) : ℤ :=
  let f := Int.fdiv num den
  let r := num - f * den
  if 2 * r < den then f
  else if den < 2 * r then f + 1
  else if f % 2 = 0 then f
  else f + 1

/-- Floor of the base-2 logarithm of a positive rational: the candidate from
the numerator and denominator logarithms is off by at most one, fixed up by an
exact comparison. -/
def ratLog2 (q : ℚ) : ℤ :=
  let e0 : ℤ := (natLog2 q.num.toNat : ℤ) - (natLog2 q.den : ℤ)
  if 0 ≤ e0 then
    if 2 ^ e0.toNat * (q.den : ℤ) ≤ q.num then e0 else e0 - 1
  else
    if (q.den : ℤ) ≤ q.num * 2 ^ (-e0).toNat then e0 else e0 - 1

/-- Round a positive rational to the nearest binary64 value (ties to even):
scale by the grid step `2 ^ (e - 52)` of the clamped binade `e`, round the
scaled value to the nearest integer with ties to even, and scale back. -/
def roundF64Pos (q : ℚ) : ℚ :=
  let e := max (ratLog2 q) (-1022)
  let s := e - 52
  if 0 ≤ s then
    mkRat (roundTiesEvenInt q.num ((q.den : ℤ) * 2 ^ s.toNat) * 2 ^ s.toNat) 1
  else
    mkRat (roundTiesEvenInt (q.num * 2 ^ (-s).toNat) (q.den : ℤ)) (2 ^ (-s).toNat)

/-- Round a rational to the nearest binary64 value (round to nearest, ties to
even; sign-symmetric, as IEEE 754 rounding is). -/
def roundF64 (q : ℚ) : ℚ :=
  if q = 0 then 0
  else if q < 0 then -roundF64Pos (-q)
  else roundF64Pos q

/-- Rust `f64::round`: round to nearest, ties away from zero.  Its argument, a
binary64 value, is exact, so no further error enters here. -/
def rustRound (q : ℚ) : ℤ :=
  if q < 0 then -⌊-q + 1/2⌋ else ⌊q + 1/2⌋

/-- Rust `as usize` on a float: truncating cast saturating into `[0, USIZE)`. -/
def rustCastUsize (z : ℤ) : Nat := min z.toNat (USIZE - 1)

/-- `MemoryAmount::from_gb_f64`: `(amount * 1000.0).round() as usize`.  The
multiplication runs in binary64 (1000.0 is exact, so the machine product is
the correctly rounded exact product, `roundF64 (amount * 1000)`), then Rust
`round()` and the saturating cast apply. -/
def MemoryAmount.from_gb_f64 (amount : ℚ) : MemoryAmount :=
  ⟨rustCastUsize (rustRound (roundF64 (amount * 1000)))⟩

/-- `MemoryAmount::as_mb`. -/
def MemoryAmount.as_mb (m : MemoryAmount) : Nat := m.mb

/-- `MailType` (`src/lib.rs` lines 209–224): Slurm email notification events. -/
inductive MailType where
  | none
  | begin
  | end
  | fail
  | requeue
  | all
  | invalidDepend
  | stageOut
  | timeLimit
  | timeLimit90
  | timeLimit80
  | timeLimit50
  | arrayTasks
deriving Repr, DecidableEq

/-- `MailType::to_string` (`src/lib.rs` lines 226–246): the literal scheduler token. -/
def MailType.toString : MailType → String
  | .none => "NONE"
  | .begin => "BEGIN"
  | .end => "END"
  | .fail => "FAIL"
  | .requeue => "REQUEUE"
  | .all => "ALL"
  | .invalidDepend => "INVALID_DEPEND"
  | .stageOut => "STAGE_OUT"
  | .timeLimit => "TIME_LIMIT"
  | .timeLimit90 => "TIME_LIMIT_90"
  | .timeLimit80 => "TIME_LIMIT_80"
  | .timeLimit50 => "TIME_LIMIT_50"
  | .arrayTasks => "ARRAY_TASKS"

/-- Rust `{:02}` formatting of a natural number: pad with zeros to width two. -/
def pad2 (n : Nat) : String := if n < 10 then "0" ++ Nat.repr n else Nat.repr n

/-- `fmt_as_slurm_time` (`src/lib.rs` lines 278–286): render whole seconds as
`D-H:MM:SS` (the Rust `u64` arithmetic here is divisions and exact
subtractions, so no truncation arises). -/
def fmt_as_slurm_time (secs0 : Nat) : String :=
  let minutes0 := secs0 / 60
  let secs := secs0 - minutes0 * 60
  let hrs0 := minutes0 / 60
  let minutes := minutes0 - hrs0 * 60
  let days := hrs0 / 24
  let hrs := hrs0 - days * 24
  Nat.repr days ++ "-" ++ Nat.repr hrs ++ ":" ++ pad2 minutes ++ ":" ++ pad2 secs

/-- The data a `ResourcePolicy` (`src/lib.rs` lines 320–377) supplies to
`SlurmResources::new`: one field per trait method consumed there (`time` is
`Duration::as_secs()` in whole seconds; `memory` the `MemoryAmount`; log paths
as strings). -/
structure ResourcePolicy where
  script : String
  time : Nat
  memory : MemoryAmount
  cpus : Nat
  nodes : Nat
  job_name : Option String
  mail_user : Option String
  mail_type : List MailType
  constraint : Option String
  exclude : Option String
  nodelist : Option String
  log_err : String
  log_out : String
deriving Repr, DecidableEq

/-- `SlurmResources` (`src/lib.rs` lines 248–276), in declaration order. -/
structure SlurmResources where
  script : String
  log_err : String
  log_out : String
  job_name : Option String
  cpus : Nat
  nodes : Nat
  time : String
  memory : String
  mail_user : Option String
  mail_type : Option String
  constraint : Option String
  exclude : Option String
  nodelist : Option String
deriving Repr, DecidableEq

/-- `SlurmResources::new` (`src/lib.rs` lines 288–315). -/
def SlurmResources.new (exp : ResourcePolicy) : SlurmResources :=
  let mail_type :=
    let mt := exp.mail_type
    if mt.isEmpty then
      Option.none
    else
      Option.some (String.intercalate "," (mt.map MailType.toString))
  { script := exp.script
    log_err := exp.log_err
    log_out := exp.log_out
    job_name := exp.job_name
    cpus := exp.cpus
    nodes := exp.nodes
    time := fmt_as_slurm_time exp.time
    memory := Nat.repr exp.memory.as_mb ++ "MB"
    mail_user := exp.mail_user
    mail_type := mail_type
    constraint := exp.constraint
    exclude := exp.exclude
    nodelist := exp.nodelist }

/-! ## Serialized form of `SlurmResources`

`serde` serializes struct fields in declaration order under their `rename`d
names, skipping a field with `skip_serializing_if = "Option::is_none"` when it
is `None`.  The embedding renders the record as the ordered list of emitted
key/value pairs.  Note the source's `nodelist` field carries
`#[serde(rename = "constraint")]` (`src/lib.rs` line 274), so a set `nodelist`
is emitted under the key `constraint`, duplicating the `constraint` field's key. -/

/-- A serialized JSON scalar: the value types occurring in `SlurmResources`. -/
inductive JVal where
  | str : String → JVal
  | nat : Nat → JVal
deriving Repr, DecidableEq

/-- Emission of one optional string field: skipped entirely when `None`. -/
def optEntry (name : String) (v : Option String) : List (String × JVal) :=
  match v with
  | Option.none => []
  | Option.some s => [(name, JVal.str s)]

/-- The ordered key/value pairs `serde` emits for a `SlurmResources` record
(declaration order, `rename`s applied, `None` fields skipped). -/
def SlurmResources.serialized (r : SlurmResources) : List (String × JVal) :=
  [("script", JVal.str r.script), ("err", JVal.str r.log_err), ("out", JVal.str r.log_out)] ++
  optEntry "job-name" r.job_name ++
  [("cpus-per-task", JVal.nat r.cpus), ("nodes", JVal.nat r.nodes),
   ("time", JVal.str r.time), ("mem", JVal.str r.memory)] ++
  optEntry "mail-user" r.mail_user ++
  optEntry "mail-type" r.mail_type ++
  optEntry "constraint" r.constraint ++
  optEntry "exclude" r.exclude ++
  optEntry "constraint" r.nodelist

/-! ## Filesystem model (`src/lib.rs` lines 89–129, 168–177)

The filesystem is a value: a list of existing directories, an association list
of file paths to contents, and a list of paths on which creation fails with a
permission error.  Path canonicalization is modelled as the identity (paths in
the model are taken to be already absolute and symlink-free), and recursive
parent creation is abstracted: `ROOT/<id>` is created as one unit.  A
`create_dir_all` call that finds the directory already present is modelled as
returning the `AlreadyExists` error kind, which is how a lost creation race
with a concurrent process surfaces to the caller. -/

/-- Filesystem error kinds relevant to the embedded operations. -/
inductive IoErr where
  | alreadyExists
  | permissionDenied
deriving Repr, DecidableEq

/-- Filesystem state. -/
structure Fs where
  dirs : List String
  files : List (String × String)
  forbidden : List String
deriving Repr, DecidableEq

/-- `std::fs::create_dir_all`: fails with a permission error on a forbidden
path, reports `AlreadyExists` when the directory is already present (the
concurrent-creation race), and otherwise records the new directory. -/
def createDirAll (fs : Fs) (d : String) : Except IoErr Fs :=
  if d ∈ fs.forbidden then Except.error IoErr.permissionDenied
  else if d ∈ fs.dirs then Except.error IoErr.alreadyExists
  else Except.ok { fs with dirs := d :: fs.dirs }

/-- `ensure_directory_exists` (`src/lib.rs` lines 168–177): create the
directory, treating `AlreadyExists` as success and propagating any other
error; return the canonicalized path. -/
def ensure_directory_exists (fs : Fs) (path : String) : Except IoErr (Fs × String) :=
  match createDirAll fs path with
  | Except.ok fs1 => Except.ok (fs1, path)
  | Except.error IoErr.alreadyExists => Except.ok (fs, path)
  | Except.error e => Except.error e

/-- `PathBuf::push` of one component. -/
def pathJoin (a b : String) : String := a ++ "/" ++ b

/-- `Experiment::get_output_path` (`src/lib.rs` lines 89–95): ensure
`ROOT/PARAM_ID` exists, then append the filename.  The source `unwrap`s the
directory-creation result; the panic on failure is modelled as the error
propagating. -/
def get_output_path (fs : Fs) (root paramId filename : String) : Except IoErr (Fs × String) :=
  match ensure_directory_exists fs (pathJoin root paramId) with
  | Except.ok (fs1, dir) => Except.ok (fs1, pathJoin dir filename)
  | Except.error e => Except.error e

/-- Look up a file's contents. -/
def Fs.fileContent (fs : Fs) (p : String) : Option String := fs.files.lookup p

/-- `std::fs::write`: create or truncate-and-overwrite (the association list is
shadowed at the front, so `lookup` sees the newest write). -/
def Fs.writeFile (fs : Fs) (p c : String) : Fs := { fs with files := (p, c) :: fs.files }

/-- `Experiment::write_parameter_file` (`src/lib.rs` lines 122–129): resolve
`ROOT/PARAM_ID/parameters.json` and write `content` (the serialized
parameters) only if no file exists there. -/
def write_parameter_file (fs : Fs) (root paramId content : String) : Except IoErr Fs :=
  match get_output_path fs root paramId "parameters.json" with
  | Except.ok (fs1, p) =>
      if (fs1.fileContent p).isSome then Except.ok fs1
      else Except.ok (fs1.writeFile p content)
  | Except.error e => Except.error e

/-! ## Batch query server (`src/lib.rs` lines 474–492)

`run_pipe_server` reads a list of argument-vectors, builds one experiment per
vector through the argument-parsing collaborator (any failure aborts the
whole batch via `?`), and only after all succeed writes the list of
`SlurmResources` to the output channel in one `serde_json::to_writer` call.
The output channel is modelled as `Option (List SlurmResources)`: `none`
means zero bytes were written. -/

/-- The `for cmd in commands` loop body of `run_pipe_server`: build each
experiment and collect its `SlurmResources`, aborting on the first failure. -/
def pipeLoop (build : List String → Except String ResourcePolicy) :
    List (List String) → Except String (List SlurmResources)
  | [] => Except.ok []
  | cmd :: rest => do
      let exp ← build cmd
      let specs ← pipeLoop build rest
      pure (SlurmResources.new exp :: specs)

/-- `run_pipe_server` (`src/lib.rs` lines 474–492): the pair of the returned
`Result` and what was written to the output channel (`none` = nothing). -/
def runPipeServer (build : List String → Except String ResourcePolicy)
    (request : List (List String)) : Except String Unit × Option (List SlurmResources) :=
  match pipeLoop build request with
  | Except.ok specs => (Except.ok (), Option.some specs)
  | Except.error e => (Except.error e, Option.none)

/-- `clap::Parser::try_parse_from`: clap treats the first item of the iterator
as the binary name (argv[0]) and does not parse it as an argument — the call
site's own comment reads "cmd is expected to have an argv[0] which is ignored"
(`src/lib.rs` line 484).  Modelled from clap's documented behaviour: drop the
head, hand the rest to the argument parser. -/
def clapParseFrom (parseArgs : List String → Except String α) (cmd : List String) :
    Except String α :=
  parseArgs (cmd.drop 1)

/-! A small concrete argument schema (the `frob` switch of the example
parameter struct, `examples/usage.rs` lines 38–40) used to instantiate the
generic server theorems on concrete inputs. -/

/-- A one-flag parameter record. -/
structure MiniParams where
  frob : Bool
deriving Repr, DecidableEq

/-- Parse a list of CLI argument tokens into `MiniParams`: `--frob` sets the
switch (as clap does for a `bool` field), anything else is a parse error. -/
def parseMiniArgs (args : List String) : Except String MiniParams :=
  args.foldlM
    (fun (p : MiniParams) arg =>
      if arg = "--frob" then Except.ok { p with frob := true }
      else Except.error ("unexpected argument " ++ arg))
    ⟨false⟩

/-- A concrete resource policy derived from `MiniParams` (job name records the
switch, so the parse outcome is observable in the `SlurmResources`). -/
def miniPolicy (p : MiniParams) : ResourcePolicy :=
  { script := "#!/bin/bash\n"
    time := 300
    memory := MemoryAmount.from_gb 4
    cpus := 1
    nodes := 1
    job_name := Option.some (if p.frob then "frob" else "nofrob")
    mail_user := Option.none
    mail_type := []
    constraint := Option.none
    exclude := Option.none
    nodelist := Option.none
    log_err := "run.err"
    log_out := "run.out" }

/-- The batch server's builder for the mini schema: parse via clap semantics,
then derive the policy. -/
def buildMini (cmd : List String) : Except String ResourcePolicy :=
  (clapParseFrom parseMiniArgs cmd).map miniPolicy

/-! ## Floating-point field model (for the Canonical Serializer)

An `f64` is modelled as a sign bit together with its exact magnitude, so that
numerically-equal values with different in-memory representations exist in the
model (`0.0` versus `-0.0`). -/

/-- A model of an `f64` datum: the sign bit and the (nonnegative) magnitude. -/
structure F64 where
  neg : Bool
  mag : ℚ
deriving Repr, DecidableEq

/-- The numeric value an `F64` denotes. -/
def F64.val (x : F64) : ℚ := if x.neg then -x.mag else x.mag

/-- Numeric equality of floats (`==` on numbers): equality of denoted values. -/
def F64.numEq (x y : F64) : Prop := x.val = y.val

instance (x y : F64) : Decidable (x.numEq y) := inferInstanceAs (Decidable (x.val = y.val))

/-- Positive zero. -/
def posZero : F64 := ⟨false, 0⟩

/-- Negative zero: numerically equal to `posZero`, distinct representation. -/
def negZero : F64 := ⟨true, 0⟩

/-- The in-memory representation (`f64::to_ne_bytes` abstracted): the raw
sign/magnitude pair, which distinguishes `0.0` from `-0.0`. -/
def f64Bits (x : F64) : Bool × ℚ := (x.neg, x.mag)

/-- Modelled from the spec: the Canonical Serializer's rendering of a float
("canonical decimal text form, not bit pattern", §4.1; the serializer is the
external `serde_json` crate, not part of this repository's sources).  The
spec fixes the text only up to being a function of the numeric value; the
embedding renders the exact value as numerator and denominator text. -/
def canonicalFloatText (x : F64) : String :=
  Int.repr x.val.num ++ "/" ++ Nat.repr x.val.den

/-! ## The example parameter set (`examples/usage.rs` lines 30–69)

`Params` with its field order, its canonical JSON serialization (modelled from
the spec: the Canonical Serializer emits fields in declared order, §4.1; the
JSON text itself comes from the external `serde_json`), and its `IdStr`
implementation with the `param_name` override. -/

/-- `Penum` (`examples/usage.rs` lines 24–28). -/
inductive Penum where
  | foo
  | bar
deriving Repr, DecidableEq

/-- JSON rendering of a `Penum` value. -/
def Penum.json : Penum → String
  | .foo => "\"Foo\""
  | .bar => "\"Bar\""

/-- JSON rendering of a bool. -/
def jsonBool (b : Bool) : String := if b then "true" else "false"

/-- JSON rendering of an optional string (`None` → `null`; the names in play
contain no characters needing escapes, which are not modelled). -/
def jsonOptStr : Option String → String
  | Option.none => "null"
  | Option.some s => "\"" ++ s ++ "\""

/-- `Params` (`examples/usage.rs` lines 30–50), fields in declaration order.
`u16` values stay below `2^16`, so `cpus` is a plain `Nat`. -/
structure Params where
  epsilon : F64
  cpus : Nat
  frob : Bool
  baz : Bool
  param_name : Option String
  cat : Penum
deriving Repr, DecidableEq

/-- Modelled from the spec: `serde_json::to_string` of a `Params` value —
fields in declared order under their field names (§4.1). -/
def Params.canonicalJson (p : Params) : String :=
  "\x7b\"epsilon\":" ++ canonicalFloatText p.epsilon ++
  ",\"cpus\":" ++ Nat.repr p.cpus ++
  ",\"frob\":" ++ jsonBool p.frob ++
  ",\"baz\":" ++ jsonBool p.baz ++
  ",\"param_name\":" ++ jsonOptStr p.param_name ++
  ",\"cat\":" ++ p.cat.json ++ "\x7d"

/-- `IdStr for Params` (`examples/usage.rs` lines 65–69):
`self.param_name.clone().unwrap_or_else(|| id_from_serialised(self))`. -/
def Params.id_str (p : Params) : String :=
  match p.param_name with
  | Option.some s => s
  | Option.none => id_from_serialised Params.canonicalJson p

/-! ## Concrete inputs used by the witness theorems -/

/-- A `SlurmResources` record with every optional field set, in particular a
node list. -/
def slurmResNodelist : SlurmResources :=
  { script := "run.sh", log_err := "logs/a-.err", log_out := "logs/a-.out"
    job_name := Option.some "job1", cpus := 4, nodes := 1
    time := "0-0:05:00", memory := "4000MB"
    mail_user := Option.some "user@host", mail_type := Option.some "END"
    constraint := Option.some "avx2", exclude := Option.some "badnode"
    nodelist := Option.some "node7" }

/-- A policy whose event list is unsorted and has a duplicate. -/
def polMail : ResourcePolicy :=
  { miniPolicy ⟨false⟩ with mail_type := [MailType.end, MailType.begin, MailType.end] }

/-- A two-element batch request (each vector has its argv0 first). -/
def reqTwo : List (List String) := [["usage", "--frob"], ["usage"]]

/-- A filesystem that already holds a parameter file. -/
def fsWithParams : Fs :=
  { dirs := ["logs/abc"], files := [("logs/abc/parameters.json", "old content")],
    forbidden := [] }

/-- An empty filesystem. -/
def fsEmpty : Fs := { dirs := [], files := [], forbidden := [] }

/-- A filesystem on which creating `logs/abc` is denied. -/
def fsNoPerm : Fs := { dirs := [], files := [], forbidden := ["logs/abc"] }

/-- A parameter set without an override name. -/
def paramsHashed : Params :=
  ⟨⟨false, mkRat 1 10000⟩, 1, false, false, Option.none, Penum.foo⟩

/-- A parameter set with the override name `baseline`. -/
def paramsNamed : Params :=
  ⟨⟨false, mkRat 1 10000⟩, 1, true, false, Option.some "baseline", Penum.bar⟩

/-! ## Helper lemmas -/

/-- `fmt_as_slurm_time` in closed form: the successive division/subtraction
steps of the source compute the day/hour/minute/second digits. -/
theorem fmt_as_slurm_time_eq (n : Nat) :
    fmt_as_slurm_time n =
      Nat.repr (n / 86400) ++ "-" ++ Nat.repr (n / 3600 % 24) ++ ":" ++
      pad2 (n / 60 % 60) ++ ":" ++ pad2 (n % 60) := by
  have e1 : n / 60 / 60 = n / 3600 := by omega
  have e2 : n - n / 60 * 60 = n % 60 := by omega
  have e3 : n / 60 - n / 3600 * 60 = n / 60 % 60 := by omega
  have e4 : n / 3600 / 24 = n / 86400 := by omega
  have e5 : n / 3600 - n / 86400 * 24 = n / 3600 % 24 := by omega
  simp only [fmt_as_slurm_time, e1, e2, e3, e4, e5]

/-- Two-digit padding really is two digits below 100. -/
theorem pad2_length (m : Nat) (hm : m < 100) : (pad2 m).length = 2 := by
  revert hm
  revert m
  decide

/-- The serialized record has a `mail-type` key exactly when the field is set. -/
theorem mail_type_key_mem (r : SlurmResources) :
    ("mail-type" ∈ r.serialized.map Prod.fst) ↔ r.mail_type.isSome := by
  obtain ⟨s, e, o, jn, c, nd, t, m, mu, mt, co, ex, nl⟩ := r
  cases jn <;> cases mu <;> cases mt <;> cases co <;> cases ex <;> cases nl <;>
    simp [SlurmResources.serialized, optEntry]

/-- A successful `mapM` over `Except` preserves length. -/
theorem exceptMapM_ok_length {α β ε : Type} (f : α → Except ε β) (l : List α) :
    ∀ bs, l.mapM f = Except.ok bs → bs.length = l.length := by
  induction l with
  | nil =>
      intro bs h
      simp only [List.mapM_nil, pure, Except.pure] at h
      cases h
      rfl
  | cons a l ih =>
      intro bs h
      rw [List.mapM_cons] at h
      cases hfa : f a with
      | error e => rw [hfa] at h; simp [Bind.bind, Except.bind] at h
      | ok b =>
          rw [hfa] at h
          cases hml : l.mapM f with
          | error e => rw [hml] at h; simp [Bind.bind, Except.bind] at h
          | ok bs2 =>
              rw [hml] at h
              simp only [Bind.bind, Except.bind, pure, Except.pure] at h
              cases h
              simp [ih bs2 hml]

/-- A successful `mapM` over `Except` maps element `i` to element `i`. -/
theorem exceptMapM_ok_get {α β ε : Type} (f : α → Except ε β) (l : List α) :
    ∀ bs, l.mapM f = Except.ok bs →
      ∀ i (hi : i < l.length) (hi2 : i < bs.length),
        f (l.get ⟨i, hi⟩) = Except.ok (bs.get ⟨i, hi2⟩) := by
  induction l with
  | nil => intro bs h i hi; exact absurd hi (by simp)
  | cons a l ih =>
      intro bs h i hi hi2
      rw [List.mapM_cons] at h
      cases hfa : f a with
      | error e => rw [hfa] at h; simp [Bind.bind, Except.bind] at h
      | ok b =>
          rw [hfa] at h
          cases hml : l.mapM f with
          | error e => rw [hml] at h; simp [Bind.bind, Except.bind] at h
          | ok bs2 =>
              rw [hml] at h
              simp only [Bind.bind, Except.bind, pure, Except.pure] at h
              cases h
              cases i with
              | zero => exact hfa
              | succ j => exact ih bs2 hml j (by simpa using hi) (by simpa using hi2)

/-- The server loop is `mapM` of the builder followed by the per-element
normalization. -/
theorem pipeLoop_eq (build : List String → Except String ResourcePolicy)
    (request : List (List String)) :
    pipeLoop build request
      = (request.mapM build).map (fun es => es.map SlurmResources.new) := by
  induction request with
  | nil => rfl
  | cons cmd rest ih =>
      rw [List.mapM_cons]
      cases h : build cmd with
      | error e => simp [pipeLoop, h, Bind.bind, Except.bind, Except.map]
      | ok exp =>
          simp only [pipeLoop, h, Bind.bind, Except.bind, ih]
          cases h2 : rest.mapM build with
          | error e => simp [Except.map, Bind.bind, Except.bind]
          | ok exps => simp [Except.map, Bind.bind, Except.bind, pure, Except.pure]

/-- `natLog2Aux` brackets its argument between consecutive powers of two. -/
theorem natLog2Aux_spec : ∀ (fuel n : Nat), 1 ≤ n → n ≤ fuel →
    2 ^ natLog2Aux fuel n ≤ n ∧ n < 2 ^ (natLog2Aux fuel n + 1) := by
  intro fuel
  induction fuel with
  | zero => intro n h1 h2; omega
  | succ f ih =>
      intro n h1 h2
      rw [natLog2Aux]
      by_cases hn : n ≤ 1
      · rw [if_pos hn]
        have : n = 1 := by omega
        subst this
        simp
      · rw [if_neg hn]
        obtain ⟨ha, hb⟩ := ih (n / 2) (by omega) (by omega)
        have e1 : 2 ^ (1 + natLog2Aux f (n / 2)) = 2 * 2 ^ natLog2Aux f (n / 2) := by
          rw [pow_add, pow_one]
        have e2 : 2 ^ (1 + natLog2Aux f (n / 2) + 1) = 2 * 2 ^ (natLog2Aux f (n / 2) + 1) := by
          rw [pow_add, pow_add, pow_one]
          ring
        omega

/-- `natLog2 n` is the floor logarithm: `2 ^ (natLog2 n) ≤ n < 2 ^ (natLog2 n + 1)`. -/
theorem natLog2_spec (n : Nat) (h1 : 1 ≤ n) :
    2 ^ natLog2 n ≤ n ∧ n < 2 ^ (natLog2 n + 1) :=
  natLog2Aux_spec n n h1 le_rfl

/-- `pow2Q` agrees with the integer power of two in `ℚ`. -/
theorem pow2Q_eq (e : ℤ) : pow2Q e = (2 : ℚ) ^ e := by
  unfold pow2Q
  by_cases he : 0 ≤ e
  · rw [if_pos he, Rat.mkRat_one]
    push_cast
    rw [← zpow_natCast]
    congr 1
    omega
  · rw [if_neg he, Rat.mkRat_eq_div]
    push_cast
    rw [one_div, ← zpow_natCast 2 (-e).toNat, ← zpow_neg]
    congr 1
    omega

/-- `pow2Q` is positive. -/
theorem pow2Q_pos (e : ℤ) : 0 < pow2Q e := by
  rw [pow2Q_eq]
  positivity

/-- `pow2Q` is monotone. -/
theorem pow2Q_mono {a b : ℤ} (h : a ≤ b) : pow2Q a ≤ pow2Q b := by
  rw [pow2Q_eq, pow2Q_eq]
  exact zpow_le_zpow_right₀ one_le_two h

/-- `pow2Q` turns addition into multiplication. -/
theorem pow2Q_add (a b : ℤ) : pow2Q (a + b) = pow2Q a * pow2Q b := by
  rw [pow2Q_eq, pow2Q_eq, pow2Q_eq, zpow_add₀ (two_ne_zero : (2 : ℚ) ≠ 0)]

/-- `pow2Q` is strictly monotone. -/
theorem pow2Q_lt_pow2Q {a b : ℤ} (h : a < b) : pow2Q a < pow2Q b := by
  rw [pow2Q_eq, pow2Q_eq]
  exact zpow_lt_zpow_right₀ one_lt_two h

/-- The integer comparison inside `ratLog2` decides `pow2Q e0 ≤ q`. -/
theorem ratLog2_cond (q : ℚ) (hq : 0 < q) :
    ratLog2 q = if pow2Q ((natLog2 q.num.toNat : ℤ) - (natLog2 q.den : ℤ)) ≤ q
      then (natLog2 q.num.toNat : ℤ) - (natLog2 q.den : ℤ)
      else (natLog2 q.num.toNat : ℤ) - (natLog2 q.den : ℤ) - 1 := by
  have hb : (0 : ℚ) < (q.den : ℚ) := by exact_mod_cast q.pos
  have hqe : (q.num : ℚ) / (q.den : ℚ) = q := Rat.num_div_den q
  unfold ratLog2
  set e0 : ℤ := (natLog2 q.num.toNat : ℤ) - (natLog2 q.den : ℤ) with he0
  clear_value e0
  by_cases hs : 0 ≤ e0
  · rw [if_pos hs]
    congr 1
    rw [eq_iff_iff]
    have hpe : pow2Q e0 = ((2 ^ e0.toNat : ℤ) : ℚ) := by
      rw [pow2Q_eq]
      push_cast
      rw [← zpow_natCast]
      congr 1
      omega
    constructor
    · intro h
      rw [hpe, ← hqe, le_div_iff₀ hb]
      exact_mod_cast h
    · intro h
      rw [hpe, ← hqe, le_div_iff₀ hb] at h
      exact_mod_cast h
  · rw [if_neg hs]
    congr 1
    rw [eq_iff_iff]
    have hpe : pow2Q e0 = 1 / ((2 ^ (-e0).toNat : ℤ) : ℚ) := by
      rw [pow2Q_eq]
      push_cast
      rw [one_div, ← zpow_natCast 2 (-e0).toNat, ← zpow_neg]
      congr 1
      omega
    constructor
    · intro h
      rw [hpe, ← hqe, div_le_div_iff₀ (by positivity) hb, one_mul]
      exact_mod_cast h
    · intro h
      rw [hpe, ← hqe, div_le_div_iff₀ (by positivity) hb, one_mul] at h
      exact_mod_cast h

/-- `ratLog2` is the floor logarithm: `pow2Q (ratLog2 q) ≤ q < pow2Q (ratLog2 q + 1)`. -/
theorem ratLog2_spec (q : ℚ) (hq : 0 < q) :
    pow2Q (ratLog2 q) ≤ q ∧ q < pow2Q (ratLog2 q + 1) := by
  have hbn : 0 < q.den := q.pos
  have hB : (0 : ℚ) < (q.den : ℚ) := by exact_mod_cast hbn
  have han : 0 < q.num := Rat.num_pos.mpr hq
  have hqe : (q.num : ℚ) / (q.den : ℚ) = q := Rat.num_div_den q
  obtain ⟨hla, hlb⟩ := natLog2_spec q.num.toNat (by omega)
  obtain ⟨hda, hdb⟩ := natLog2_spec q.den (by omega)
  rw [ratLog2_cond q hq]
  set la := natLog2 q.num.toNat with hla0
  set lb := natLog2 q.den with hlb0
  have Hla : (2 : ℚ) ^ ((la : ℤ)) ≤ (q.num : ℚ) := by
    rw [zpow_natCast]
    have h2 : (2 ^ la : ℤ) ≤ q.num := by zify at hla; omega
    exact_mod_cast h2
  have Hlb : ((q.num : ℚ)) < (2 : ℚ) ^ ((la : ℤ) + 1) := by
    rw [show ((la : ℤ) + 1) = ((la + 1 : ℕ) : ℤ) by omega, zpow_natCast]
    have h2 : q.num < (2 ^ (la + 1) : ℤ) := by zify at hlb; omega
    exact_mod_cast h2
  have Hda : (2 : ℚ) ^ ((lb : ℤ)) ≤ (q.den : ℚ) := by
    rw [zpow_natCast]
    exact_mod_cast hda
  have Hdb : ((q.den : ℚ)) < (2 : ℚ) ^ ((lb : ℤ) + 1) := by
    rw [show ((lb : ℤ) + 1) = ((lb + 1 : ℕ) : ℤ) by omega, zpow_natCast]
    exact_mod_cast hdb
  clear_value la lb
  clear hla hlb hda hdb hla0 hlb0
  by_cases hcond : pow2Q ((la : ℤ) - (lb : ℤ)) ≤ q
  · rw [if_pos hcond]
    refine ⟨hcond, ?_⟩
    rw [pow2Q_eq, ← hqe, div_lt_iff₀ hB]
    calc (q.num : ℚ) < 2 ^ ((la : ℤ) + 1) := Hlb
    _ = 2 ^ ((la : ℤ) - (lb : ℤ) + 1) * 2 ^ ((lb : ℤ)) := by
        rw [← zpow_add₀ (two_ne_zero : (2 : ℚ) ≠ 0)]
        congr 1
        omega
    _ ≤ 2 ^ ((la : ℤ) - (lb : ℤ) + 1) * (q.den : ℚ) :=
        mul_le_mul_of_nonneg_left Hda (by positivity)
  · rw [if_neg hcond]
    constructor
    · rw [pow2Q_eq, ← hqe, le_div_iff₀ hB]
      calc 2 ^ ((la : ℤ) - (lb : ℤ) - 1) * (q.den : ℚ)
        ≤ 2 ^ ((la : ℤ) - (lb : ℤ) - 1) * 2 ^ ((lb : ℤ) + 1) :=
          mul_le_mul_of_nonneg_left (le_of_lt Hdb) (by positivity)
      _ = 2 ^ ((la : ℤ)) := by
          rw [← zpow_add₀ (two_ne_zero : (2 : ℚ) ≠ 0)]
          congr 1
          omega
      _ ≤ (q.num : ℚ) := Hla
    · rw [show (la : ℤ) - (lb : ℤ) - 1 + 1 = (la : ℤ) - (lb : ℤ) by omega]
      exact lt_of_not_ge fun h => hcond h

/-- Nearest-integer rounding with ties to even: within one half of the exact
quotient, and nonnegative for a nonnegative numerator. -/
theorem roundTiesEvenInt_spec (a b : ℤ) (hb : 0 < b) :
    |((roundTiesEvenInt a b : ℤ) : ℚ) - (a : ℚ) / (b : ℚ)| ≤ 1 / 2
    ∧ (0 ≤ a → 0 ≤ roundTiesEvenInt a b) := by
  have hbq : (0 : ℚ) < (b : ℚ) := by exact_mod_cast hb
  have hfd : Int.fdiv a b = a / b := Int.fdiv_eq_ediv a (le_of_lt hb)
  have hmod : a - a / b * b = a % b := by rw [Int.emod_def]; ring
  have hr0 : 0 ≤ a % b := Int.emod_nonneg a (ne_of_gt hb)
  have hrb : a % b < b := Int.emod_lt_of_pos a hb
  have hq : (a : ℚ) / (b : ℚ) = ((a / b : ℤ) : ℚ) + ((a % b : ℤ) : ℚ) / (b : ℚ) := by
    have h := Int.ediv_add_emod a b
    have hc : (b : ℚ) * ((a / b : ℤ) : ℚ) + ((a % b : ℤ) : ℚ) = (a : ℚ) := by
      exact_mod_cast congrArg (Int.cast : ℤ → ℚ) h
    field_simp
    linarith
  have hfrac0 : (0 : ℚ) ≤ ((a % b : ℤ) : ℚ) / (b : ℚ) := by positivity
  have hfrac1 : ((a % b : ℤ) : ℚ) / (b : ℚ) < 1 := by
    rw [div_lt_one hbq]
    exact_mod_cast hrb
  simp only [roundTiesEvenInt]
  rw [hfd, hmod]
  constructor
  · by_cases h1 : 2 * (a % b) < b
    · rw [if_pos h1]
      have hlt : ((a % b : ℤ) : ℚ) / (b : ℚ) < 1 / 2 := by
        rw [div_lt_div_iff₀ hbq (by norm_num)]
        have h2 : (2 * (a % b) : ℤ) < b := h1
        linarith [(by exact_mod_cast h2 : (2 : ℚ) * ((a % b : ℤ) : ℚ) < (b : ℚ))]
      rw [hq, abs_le]
      constructor <;> linarith
    · rw [if_neg h1]
      have hge : (1 : ℚ) / 2 ≤ ((a % b : ℤ) : ℚ) / (b : ℚ) := by
        rw [div_le_div_iff₀ (by norm_num) hbq]
        have h2 : b ≤ 2 * (a % b) := by omega
        linarith [(by exact_mod_cast h2 : (b : ℚ) ≤ (2 : ℚ) * ((a % b : ℤ) : ℚ))]
      by_cases h2 : b < 2 * (a % b)
      · rw [if_pos h2]
        rw [hq, abs_le]
        push_cast
        constructor <;> linarith
      · rw [if_neg h2]
        have heq : ((a % b : ℤ) : ℚ) / (b : ℚ) = 1 / 2 := by
          have h3 : 2 * (a % b) = b := by omega
          rw [div_eq_div_iff (ne_of_gt hbq) (by norm_num)]
          have h2q : (2 : ℚ) * ((a % b : ℤ) : ℚ) = (b : ℚ) := by exact_mod_cast h3
          linarith
        by_cases h3 : (a / b) % 2 = 0
        · rw [if_pos h3, hq, heq, abs_le]
          constructor <;> linarith
        · rw [if_neg h3, hq, heq, abs_le]
          push_cast
          constructor <;> linarith
  · intro ha
    have hf : 0 ≤ a / b := Int.ediv_nonneg ha (le_of_lt hb)
    by_cases h1 : 2 * (a % b) < b
    · rw [if_pos h1]; exact hf
    · rw [if_neg h1]
      by_cases h2 : b < 2 * (a % b)
      · rw [if_pos h2]; omega
      · rw [if_neg h2]
        by_cases h3 : (a / b) % 2 = 0
        · rw [if_pos h3]; exact hf
        · rw [if_neg h3]; omega

/-- The binary64 rounding of a positive rational is nonnegative and within
half a grid step, `pow2Q (e - 53)` for the clamped binade `e`, of the input. -/
theorem roundF64Pos_spec (q : ℚ) (hq : 0 < q) :
    0 ≤ roundF64Pos q
    ∧ |roundF64Pos q - q| ≤ pow2Q (max (ratLog2 q) (-1022) - 53) := by
  have hB : (0 : ℚ) < (q.den : ℚ) := by exact_mod_cast q.pos
  have han : 0 ≤ q.num := le_of_lt (Rat.num_pos.mpr hq)
  have hqe : (q.num : ℚ) / (q.den : ℚ) = q := Rat.num_div_den q
  simp only [roundF64Pos]
  set e : ℤ := max (ratLog2 q) (-1022) with he
  clear_value e
  by_cases hs : 0 ≤ e - 52
  · rw [if_pos hs]
    set k : ℕ := (e - 52).toNat with hk
    have hkz : (k : ℤ) = e - 52 := Int.toNat_of_nonneg hs
    have hden : (0 : ℤ) < (q.den : ℤ) * 2 ^ k := by positivity
    obtain ⟨hclose, hnn⟩ := roundTiesEvenInt_spec q.num ((q.den : ℤ) * 2 ^ k) hden
    set m : ℤ := roundTiesEvenInt q.num ((q.den : ℤ) * 2 ^ k) with hm
    clear_value m
    have hm0 : 0 ≤ m := hnn han
    have hres : (mkRat (m * 2 ^ k) 1 : ℚ) = ((m : ℚ)) * 2 ^ k := by
      rw [Rat.mkRat_one]
      push_cast
      ring
    have hquot : ((q.num : ℚ)) / (((q.den : ℤ) * 2 ^ k : ℤ) : ℚ) = q / 2 ^ k := by
      push_cast
      rw [← div_div, hqe]
    rw [hquot] at hclose
    constructor
    · rw [hres]
      positivity
    · rw [hres]
      have hpk : (0 : ℚ) < 2 ^ k := by positivity
      have key : (m : ℚ) * 2 ^ k - q = ((m : ℚ) - q / 2 ^ k) * 2 ^ k := by
        field_simp
      rw [key, abs_mul, abs_of_pos hpk]
      calc |(m : ℚ) - q / 2 ^ k| * 2 ^ k ≤ 1 / 2 * 2 ^ k :=
            mul_le_mul_of_nonneg_right hclose (le_of_lt hpk)
      _ = pow2Q (e - 53) := by
          rw [pow2Q_eq, show e - 53 = (k : ℤ) + (-1) by omega,
            zpow_add₀ (two_ne_zero : (2 : ℚ) ≠ 0), zpow_natCast]
          norm_num
          ring
  · rw [if_neg hs]
    set j : ℕ := (-(e - 52)).toNat with hj
    have hjz : (j : ℤ) = -(e - 52) := Int.toNat_of_nonneg (by omega)
    have hden : (0 : ℤ) < (q.den : ℤ) := by exact_mod_cast q.pos
    obtain ⟨hclose, hnn⟩ := roundTiesEvenInt_spec (q.num * 2 ^ j) (q.den : ℤ) hden
    set m : ℤ := roundTiesEvenInt (q.num * 2 ^ j) (q.den : ℤ) with hm
    clear_value m
    have hm0 : 0 ≤ m := hnn (by positivity)
    have hres : (mkRat m (2 ^ j) : ℚ) = ((m : ℚ)) / 2 ^ j := by
      rw [Rat.mkRat_eq_div]
      push_cast
      ring
    have hquot : (((q.num * 2 ^ j : ℤ)) : ℚ) / ((q.den : ℤ) : ℚ) = q * 2 ^ j := by
      push_cast
      rw [mul_comm, mul_div_assoc, hqe, mul_comm]
    rw [hquot] at hclose
    have hpj : (0 : ℚ) < 2 ^ j := by positivity
    constructor
    · rw [hres]
      positivity
    · rw [hres]
      have key : (m : ℚ) / 2 ^ j - q = ((m : ℚ) - q * 2 ^ j) / 2 ^ j := by
        field_simp
        ring
      rw [key, abs_div, abs_of_pos hpj, div_le_iff₀ hpj]
      calc |(m : ℚ) - q * 2 ^ j| ≤ 1 / 2 := hclose
      _ = pow2Q (e - 53) * 2 ^ j := by
          rw [pow2Q_eq, show e - 53 = -(j : ℤ) + (-1) by omega,
            zpow_add₀ (two_ne_zero : (2 : ℚ) ≠ 0), zpow_neg, zpow_natCast]
          rw [show ((2 : ℚ) ^ (-1 : ℤ)) = 1 / 2 by norm_num]
          field_simp

/-- `roundF64` preserves nonnegativity. -/
theorem roundF64_nonneg (q : ℚ) (hq : 0 ≤ q) : 0 ≤ roundF64 q := by
  unfold roundF64
  by_cases h0 : q = 0
  · rw [if_pos h0]
  · rw [if_neg h0, if_neg (not_lt.mpr hq)]
    exact (roundF64Pos_spec q (lt_of_le_of_ne hq (Ne.symm h0))).1

/-- `roundF64` is within half a grid step of its input. -/
theorem roundF64_err (q : ℚ) (hq : 0 < q) :
    |roundF64 q - q| ≤ pow2Q (max (ratLog2 q) (-1022) - 53) := by
  unfold roundF64
  rw [if_neg (ne_of_gt hq), if_neg (not_lt.mpr (le_of_lt hq))]
  exact (roundF64Pos_spec q hq).2

/-- Rounding the binary64 value to an integer and casting lands within one
half of that binary64 value, for the range every claim here uses. -/
theorem from_gb_f64_close (P : ℚ) (hP0 : 0 ≤ P) (hPub : P ≤ 2 ^ 63) :
    |((rustCastUsize (rustRound (roundF64 P)) : ℕ) : ℚ) - roundF64 P| ≤ 1 / 2 := by
  have hfl0 : 0 ≤ roundF64 P := roundF64_nonneg P hP0
  have hflub : roundF64 P ≤ P + 1024 := by
    by_cases hz : P = 0
    · rw [hz]
      unfold roundF64
      rw [if_pos rfl]
      norm_num
    · have hPpos : 0 < P := lt_of_le_of_ne hP0 (Ne.symm hz)
      have herr := roundF64_err P hPpos
      have hlog : ratLog2 P ≤ 63 := by
        by_contra hgt
        push_neg at hgt
        have h1 : pow2Q 64 ≤ pow2Q (ratLog2 P) := pow2Q_mono (by omega)
        have h2 : pow2Q (ratLog2 P) ≤ P := (ratLog2_spec P hPpos).1
        have h3 : pow2Q 63 < pow2Q 64 := pow2Q_lt_pow2Q (by omega)
        have h4 : P ≤ pow2Q 63 := by
          rw [pow2Q_eq, show ((63 : ℤ)) = ((63 : ℕ) : ℤ) by norm_num, zpow_natCast]
          exact hPub
        linarith
      have hb : pow2Q (max (ratLog2 P) (-1022) - 53) ≤ pow2Q 10 := pow2Q_mono (by omega)
      have h1024 : pow2Q 10 = 1024 := by
        rw [pow2Q_eq]
        norm_num
      rw [abs_le] at herr
      linarith [herr.2]
  set fl := roundF64 P with hfl
  clear_value fl
  unfold rustRound
  rw [if_neg (not_lt.mpr hfl0)]
  set z : ℤ := ⌊fl + 1 / 2⌋ with hz
  have hzle : ((z : ℤ) : ℚ) ≤ fl + 1 / 2 := Int.floor_le _
  have hzgt : fl + 1 / 2 - 1 < ((z : ℤ) : ℚ) := Int.sub_one_lt_floor _
  have hz0 : 0 ≤ z := by
    rw [hz]
    exact Int.le_floor.mpr (by push_cast; linarith)
  have hzublast : ((z : ℤ) : ℚ) < ((USIZE : ℕ) : ℚ) - 1 := by
    have hU : ((USIZE : ℕ) : ℚ) = 18446744073709551616 := by norm_num [USIZE]
    rw [hU]
    nlinarith [hzle, hflub, hPub]
  have hzub : z < (USIZE : ℤ) - 1 := by
    have h3 : ((z : ℤ) : ℚ) < ((((USIZE : ℕ) : ℤ) - 1 : ℤ) : ℚ) := by
      push_cast
      push_cast at hzublast
      linarith
    exact_mod_cast h3
  have hmin : rustCastUsize z = z.toNat := by
    unfold rustCastUsize
    exact min_eq_left (by omega)
  rw [hmin]
  have hcast : ((z.toNat : ℕ) : ℚ) = ((z : ℤ) : ℚ) := by
    have h4 := Int.toNat_of_nonneg hz0
    exact_mod_cast congrArg (Int.cast : ℤ → ℚ) h4
  rw [hcast, abs_le]
  constructor <;> linarith

/-- For inputs of at least one, the binary64 rounding error is below the
relative bound `2 ^ (-53)`. -/
theorem roundF64_rel_err (P : ℚ) (h1 : 1 ≤ P) : |roundF64 P - P| ≤ P / 2 ^ 53 := by
  have hPpos : (0 : ℚ) < P := lt_of_lt_of_le one_pos h1
  have herr := roundF64_err P hPpos
  have hlog0 : 0 ≤ ratLog2 P := by
    by_contra hneg
    push_neg at hneg
    have h2 := (ratLog2_spec _ hPpos).2
    have h3 : pow2Q (ratLog2 P + 1) ≤ pow2Q 0 := pow2Q_mono (by omega)
    have h4 : pow2Q 0 = 1 := by
      rw [pow2Q_eq]
      norm_num
    linarith
  have hmax : max (ratLog2 P) (-1022) = ratLog2 P := max_eq_left (by omega)
  rw [hmax] at herr
  have hsplit : pow2Q (ratLog2 P - 53) = pow2Q (ratLog2 P) * pow2Q (-53) := by
    rw [sub_eq_add_neg, pow2Q_add]
  have hbr := (ratLog2_spec _ hPpos).1
  have hp53 : pow2Q (-53) = 1 / 2 ^ 53 := by
    rw [pow2Q_eq, show ((-53 : ℤ)) = -((53 : ℕ) : ℤ) by norm_num, zpow_neg, zpow_natCast]
    norm_num
  calc |roundF64 P - P| ≤ pow2Q (ratLog2 P - 53) := herr
  _ = pow2Q (ratLog2 P) * pow2Q (-53) := hsplit
  _ ≤ P * pow2Q (-53) := mul_le_mul_of_nonneg_right hbr (le_of_lt (pow2Q_pos _))
  _ = P / 2 ^ 53 := by
      rw [hp53]
      ring

/-! ## Sanity anchors for the modelled collaborators -/

set_option maxRecDepth 8000 in
example : sha224 (strBytes "abc") =
    [35, 9, 125, 34, 52, 5, 216, 34, 134, 66, 164, 119, 189, 162,
     85, 179, 42, 173, 188, 228, 189, 160, 179, 247, 227, 108, 157, 167] := by
  decide

set_option maxRecDepth 8000 in
example : sha224 (strBytes "abcdbcdecdefdefgefghfghighijhijkijkljklmklmnlmnomnopnopq") =
    [117, 56, 139, 22, 81, 39, 118, 204, 93, 186, 93, 161, 253, 137,
     1, 80, 176, 198, 69, 92, 180, 245, 139, 25, 82, 82, 37, 37] := by
  decide

set_option maxRecDepth 8000 in
example : sha224 [] =
    [209, 74, 2, 140, 42, 58, 43, 201, 71, 97, 2, 187, 40, 130,
     52, 196, 21, 162, 176, 31, 130, 142, 166, 42, 197, 179, 228, 47] := by
  decide

set_option maxRecDepth 20000 in
example : paramsHashed.id_str = "4ZeBUMoCjwKAzZ9OvoDxpnu52tyXAu0j2NGH1n" := by decide

example : roundF64 (mkRat 562949953421312125 1) = mkRat 562949953421312128 1 := by decide

example : roundF64 (mkRat 9007199254740993 1) = mkRat 9007199254740992 1 := by decide

example : roundF64 (mkRat 9007199254740995 1) = mkRat 9007199254740996 1 := by decide

example : roundF64 (mkRat 1 10) = mkRat 3602879701896397 36028797018963968 := by decide

example : (MemoryAmount.from_gb_f64 (mkRat 4503599627370497 8)).as_mb = 562949953421312128 := by
  have hprod : (mkRat 4503599627370497 8 : ℚ) * 1000 = mkRat 562949953421312125 1 := by
    rw [Rat.mkRat_eq_div, Rat.mkRat_eq_div]
    norm_num
  have hround : roundF64 (mkRat 562949953421312125 1) = mkRat 562949953421312128 1 := by decide
  have hval : (mkRat 562949953421312128 1 : ℚ) = 562949953421312128 := by
    rw [Rat.mkRat_eq_div]
    norm_num
  show rustCastUsize (rustRound (roundF64 (mkRat 4503599627370497 8 * 1000))) = _
  rw [hprod, hround, hval]
  unfold rustRound
  rw [if_neg (by norm_num)]
  rw [show ⌊(562949953421312128 : ℚ) + 1 / 2⌋ = 562949953421312128 by
    rw [Int.floor_eq_iff]
    constructor
    · push_cast
      linarith
    · push_cast
      linarith]
  unfold rustCastUsize
  norm_num [USIZE]
  decide

example : (MemoryAmount.from_gb_f64 (mkRat 5 2)).as_mb = 2500 := by
  have hprod : (mkRat 5 2 : ℚ) * 1000 = mkRat 2500 1 := by
    rw [Rat.mkRat_eq_div, Rat.mkRat_eq_div]
    norm_num
  have hround : roundF64 (mkRat 2500 1) = mkRat 2500 1 := by decide
  have hval : (mkRat 2500 1 : ℚ) = 2500 := by
    rw [Rat.mkRat_eq_div]
    norm_num
  show rustCastUsize (rustRound (roundF64 (mkRat 5 2 * 1000))) = _
  rw [hprod, hround, hval]
  unfold rustRound
  rw [if_neg (by norm_num)]
  rw [show ⌊(2500 : ℚ) + 1 / 2⌋ = 2500 by
    rw [Int.floor_eq_iff]
    constructor
    · push_cast
      linarith
    · push_cast
      linarith]
  unfold rustCastUsize
  norm_num [USIZE]
  decide

/-! ## The claims -/

/-- C1: for every parameter value, the hash-derived identity is the base-62
encoding (digits + upper + lower, no padding, no separators) of the SHA-224
digest of the canonical JSON serialization; identity is deterministic
(`id_str v = id_str v` on every call, being a pure function of the value); and
when an override name is present and non-empty it is returned verbatim with no
sanitization, bypassing hashing entirely. -/
theorem c1_identity_engine (p : Params) :
    Params.id_str p = Params.id_str p
    ∧ (p.param_name = Option.none →
        p.id_str = base62Encode (sha224 (strBytes (Params.canonicalJson p))))
    ∧ (∀ s, p.param_name = Option.some s → s ≠ "" → p.id_str = s) := by
  refine ⟨rfl, ?_, ?_⟩
  · intro h
    simp [Params.id_str, h, id_from_serialised]
  · intro s h _
    simp [Params.id_str, h]

/-- Witness for C1: the hash branch at a value without an override, and the
override branch at the non-empty override name `baseline`. -/
theorem c1_identity_engine_witness :
    paramsHashed.id_str = base62Encode (sha224 (strBytes (Params.canonicalJson paramsHashed)))
    ∧ paramsNamed.id_str = "baseline" :=
  ⟨(c1_identity_engine paramsHashed).2.1 rfl,
   (c1_identity_engine paramsNamed).2.2 "baseline" rfl (by decide)⟩

/-- C2: when every element of the batch request parses and constructs, the
server writes exactly one response list of the same length whose element `i`
is the `SlurmResources` computed from request element `i` (order preserved);
when any element fails, the server returns the error and writes nothing at all
to the output channel. -/
theorem c2_batch_order_and_atomicity (build : List String → Except String ResourcePolicy)
    (request : List (List String)) :
    (∀ exps, request.mapM build = Except.ok exps →
        runPipeServer build request = (Except.ok (), Option.some (exps.map SlurmResources.new))
        ∧ exps.length = request.length
        ∧ ∀ i (hi : i < request.length) (hi2 : i < exps.length),
            build (request.get ⟨i, hi⟩) = Except.ok (exps.get ⟨i, hi2⟩))
    ∧ (∀ e, request.mapM build = Except.error e →
        runPipeServer build request = (Except.error e, Option.none)) := by
  constructor
  · intro exps h
    refine ⟨?_, exceptMapM_ok_length build request exps h, exceptMapM_ok_get build request exps h⟩
    unfold runPipeServer
    rw [pipeLoop_eq, h]
    rfl
  · intro e h
    unfold runPipeServer
    rw [pipeLoop_eq, h]
    rfl

/-- Witness for C2: a concrete two-element batch, fully successful, written as
one ordered two-element response. -/
theorem c2_batch_order_and_atomicity_witness :
    runPipeServer buildMini reqTwo =
      (Except.ok (), Option.some ([miniPolicy ⟨true⟩, miniPolicy ⟨false⟩].map SlurmResources.new))
    ∧ ([miniPolicy ⟨true⟩, miniPolicy ⟨false⟩] : List ResourcePolicy).length = reqTwo.length :=
  ⟨((c2_batch_order_and_atomicity buildMini reqTwo).1 [miniPolicy ⟨true⟩, miniPolicy ⟨false⟩]
      rfl).1,
   ((c2_batch_order_and_atomicity buildMini reqTwo).1 [miniPolicy ⟨true⟩, miniPolicy ⟨false⟩]
      rfl).2.1⟩

/-- C3: every whole-second duration is rendered as `D-H:MM:SS` with `D` the
unpadded whole days, `H` below 24, and `MM`, `SS` always two digits; in
particular 0, 3661, 90000 and 90061 seconds render as stated. -/
theorem c3_time_limit_format (n : Nat) :
    ∃ D H M S, n = ((D * 24 + H) * 60 + M) * 60 + S ∧ H < 24 ∧ M < 60 ∧ S < 60
      ∧ fmt_as_slurm_time n = Nat.repr D ++ "-" ++ Nat.repr H ++ ":" ++ pad2 M ++ ":" ++ pad2 S
      ∧ (pad2 M).length = 2 ∧ (pad2 S).length = 2
      ∧ fmt_as_slurm_time 0 = "0-0:00:00"
      ∧ fmt_as_slurm_time 3661 = "0-1:01:01"
      ∧ fmt_as_slurm_time 90000 = "1-1:00:00"
      ∧ fmt_as_slurm_time 90061 = "1-1:01:01" :=
  ⟨n / 86400, n / 3600 % 24, n / 60 % 60, n % 60, by omega, by omega, by omega, by omega,
   fmt_as_slurm_time_eq n, pad2_length _ (by omega), pad2_length _ (by omega),
   by decide, by decide, by decide, by decide⟩

/-- C4 (code bug): at a record whose `nodelist` field is set, the serialized
form does not keep one key per listed scheduler-facing field name — the
`nodelist` value is emitted under a second `constraint` key (the source
carries a duplicated serde rename, `src/lib.rs` line 274, against the trait
doc that calls it `sbatch --nodelist`), and no `nodelist`-named key exists. -/
theorem c4_nodelist_emitted_as_constraint :
    slurmResNodelist.serialized.map Prod.fst =
      ["script", "err", "out", "job-name", "cpus-per-task", "nodes", "time", "mem",
       "mail-user", "mail-type", "constraint", "exclude", "constraint"]
    ∧ (slurmResNodelist.serialized.map Prod.fst).count "constraint" = 2
    ∧ "nodelist" ∉ slurmResNodelist.serialized.map Prod.fst
    ∧ slurmResNodelist.serialized.getLast? = Option.some ("constraint", JVal.str "node7") :=
  ⟨by decide, by decide, by decide, by decide⟩

/-- C5 counterexample: the claim that the first string of each argument-vector
is parsed as an argument is false — in the batch request `[["--frob"]]` the
lone string `--frob` is consumed as the program name, so the response is the
record for the default (flag unset) parameters, observably different from the
record the flag would produce. -/
theorem c5_first_string_not_parsed :
    parseMiniArgs ["--frob"] = Except.ok ⟨true⟩
    ∧ runPipeServer buildMini [["--frob"]] =
        (Except.ok (), Option.some [SlurmResources.new (miniPolicy ⟨false⟩)])
    ∧ SlurmResources.new (miniPolicy ⟨false⟩) ≠ SlurmResources.new (miniPolicy ⟨true⟩) :=
  ⟨rfl, rfl, by decide⟩

/-- C5 as amended: each argument-vector is expected to carry a leading
program-name entry; the server skips the first string of each list (clap
argv0 handling) and parses only the remaining strings, so the batch outcome
equals that of the all-arguments server on the tails. -/
theorem c5_leading_argv0_skipped (parseArgs : List String → Except String ResourcePolicy)
    (request : List (List String)) :
    runPipeServer (clapParseFrom parseArgs) request
      = runPipeServer parseArgs (request.map (List.drop 1)) := by
  unfold runPipeServer
  suffices h : pipeLoop (clapParseFrom parseArgs) request
      = pipeLoop parseArgs (request.map (List.drop 1)) by rw [h]
  induction request with
  | nil => rfl
  | cons cmd rest ih => simp [pipeLoop, clapParseFrom, ih]

/-- C6: a policy with an empty notification event set yields a record whose
`mail-type` field is entirely absent from the serialized form; otherwise the
field holds the literal scheduler tokens joined by commas in exactly the order
supplied — the rendering is the pointwise token map of the given list, with no
sorting and no deduplication. -/
theorem c6_mail_type_events (p : ResourcePolicy) :
    (SlurmResources.new p).mail_type =
      (if p.mail_type.isEmpty then Option.none
       else Option.some (String.intercalate "," (p.mail_type.map MailType.toString)))
    ∧ (("mail-type" ∈ (SlurmResources.new p).serialized.map Prod.fst) ↔ p.mail_type ≠ []) := by
  constructor
  · rfl
  · rw [mail_type_key_mem]
    cases h : p.mail_type <;> simp [SlurmResources.new, h]

/-- Witness for C6: a duplicated, unsorted event list renders in given order
with the duplicate kept, and the empty event list leaves the field unset. -/
theorem c6_mail_type_events_witness :
    (SlurmResources.new polMail).mail_type = Option.some "END,BEGIN,END"
    ∧ ("mail-type" ∈ (SlurmResources.new polMail).serialized.map Prod.fst)
    ∧ (SlurmResources.new (miniPolicy ⟨false⟩)).mail_type = Option.none := by
  refine ⟨?_, ?_, ?_⟩
  · rw [(c6_mail_type_events polMail).1]; decide
  · exact (c6_mail_type_events polMail).2.mpr (by decide)
  · rw [(c6_mail_type_events (miniPolicy ⟨false⟩)).1]; decide

/-- C7: the parameter file is write-once — when
`ROOT/<id>/parameters.json` already exists, a further `write_parameter_file`
call succeeds without error and leaves every file, in particular the existing
parameter file and its content, unchanged, whether or not the new content
equals the old. -/
theorem c7_parameter_file_write_once (fs : Fs) (root pid newContent oldContent : String)
    (hdir : pathJoin root pid ∉ fs.forbidden)
    (hfile : fs.fileContent (pathJoin (pathJoin root pid) "parameters.json")
      = Option.some oldContent) :
    ∃ fs2, write_parameter_file fs root pid newContent = Except.ok fs2
      ∧ fs2.files = fs.files
      ∧ fs2.fileContent (pathJoin (pathJoin root pid) "parameters.json")
          = Option.some oldContent := by
  unfold write_parameter_file get_output_path ensure_directory_exists createDirAll
  rw [if_neg hdir]
  by_cases hd : pathJoin root pid ∈ fs.dirs
  · rw [if_pos hd]
    refine ⟨fs, ?_, rfl, hfile⟩
    simp only [Fs.fileContent] at hfile ⊢
    simp [hfile]
  · rw [if_neg hd]
    refine ⟨{ fs with dirs := pathJoin root pid :: fs.dirs }, ?_, rfl, hfile⟩
    simp only [Fs.fileContent] at hfile ⊢
    simp [hfile]

/-- Witness for C7: a second write with different content onto an existing
parameter file succeeds and leaves the old content in place. -/
theorem c7_parameter_file_write_once_witness :
    ∃ fs2, write_parameter_file fsWithParams "logs" "abc" "new content" = Except.ok fs2
      ∧ fs2.files = fsWithParams.files
      ∧ fs2.fileContent (pathJoin (pathJoin "logs" "abc") "parameters.json")
          = Option.some "old content" :=
  c7_parameter_file_write_once fsWithParams "logs" "abc" "new content" "old content"
    (by decide) (by decide)

/-- C8: resolving an output path creates `ROOT/<id>` when absent and the
creation is idempotent — a pre-existing directory (the `AlreadyExists` error
kind) is treated as success, so a second resolver call with identical
arguments never errors — while a permission error is fatal and propagated to
the caller. -/
theorem c8_output_dir_idempotent (fs : Fs) (root pid filename : String) :
    (pathJoin root pid ∉ fs.forbidden →
       ∃ fs1, get_output_path fs root pid filename
           = Except.ok (fs1, pathJoin (pathJoin root pid) filename)
         ∧ pathJoin root pid ∈ fs1.dirs ∧ fs1.files = fs.files
         ∧ fs1.forbidden = fs.forbidden)
    ∧ (∀ fs1 p, get_output_path fs root pid filename = Except.ok (fs1, p) →
         get_output_path fs1 root pid filename = Except.ok (fs1, p))
    ∧ (pathJoin root pid ∈ fs.forbidden →
         get_output_path fs root pid filename = Except.error IoErr.permissionDenied) := by
  refine ⟨?_, ?_, ?_⟩
  · intro hforb
    unfold get_output_path ensure_directory_exists createDirAll
    rw [if_neg hforb]
    by_cases hd : pathJoin root pid ∈ fs.dirs
    · rw [if_pos hd]
      exact ⟨fs, rfl, hd, rfl, rfl⟩
    · rw [if_neg hd]
      exact ⟨{ fs with dirs := pathJoin root pid :: fs.dirs }, rfl,
        List.mem_cons_self _ _, rfl, rfl⟩
  · intro fs1 p h
    unfold get_output_path ensure_directory_exists createDirAll at h ⊢
    by_cases hforb : pathJoin root pid ∈ fs.forbidden
    · rw [if_pos hforb] at h; cases h
    · rw [if_neg hforb] at h
      by_cases hd : pathJoin root pid ∈ fs.dirs
      · rw [if_pos hd] at h
        cases h
        rw [if_neg hforb, if_pos hd]
      · rw [if_neg hd] at h
        cases h
        rw [if_neg (by simpa using hforb), if_pos (List.mem_cons_self _ _)]
  · intro hforb
    unfold get_output_path ensure_directory_exists createDirAll
    rw [if_pos hforb]

/-- Witness for C8: on an empty filesystem the directory is created and the
path returned; on a filesystem denying the creation, the permission error is
propagated. -/
theorem c8_output_dir_idempotent_witness :
    (∃ fs1, get_output_path fsEmpty "logs" "abc" "x.log"
        = Except.ok (fs1, pathJoin (pathJoin "logs" "abc") "x.log")
      ∧ pathJoin "logs" "abc" ∈ fs1.dirs ∧ fs1.files = fsEmpty.files
      ∧ fs1.forbidden = fsEmpty.forbidden)
    ∧ get_output_path fsNoPerm "logs" "abc" "x.log" = Except.error IoErr.permissionDenied :=
  ⟨(c8_output_dir_idempotent fsEmpty "logs" "abc" "x.log").1 (by decide),
   (c8_output_dir_idempotent fsNoPerm "logs" "abc" "x.log").2.2 (by decide)⟩

/-- C9: the canonical serialization used for identity hashing factors through
the numeric value of a float — every pair of numerically-equal floats (even
`0.0` and `-0.0`, whose in-memory representations differ) yields the same
serialized text and hence the same identity; the raw sign/magnitude
representation, by contrast, distinguishes that same pair. -/
theorem c9_float_text_not_bits (x y : F64) :
    (x.numEq y →
      id_from_serialised canonicalFloatText x = id_from_serialised canonicalFloatText y)
    ∧ posZero.numEq negZero
    ∧ f64Bits posZero ≠ f64Bits negZero
    ∧ id_from_serialised canonicalFloatText posZero
        = id_from_serialised canonicalFloatText negZero := by
  have hz : posZero.numEq negZero := by
    simp [F64.numEq, F64.val, posZero, negZero]
  have key : ∀ a b : F64, a.numEq b → canonicalFloatText a = canonicalFloatText b := by
    intro a b h
    unfold canonicalFloatText
    rw [show a.val = b.val from h]
  refine ⟨?_, hz, ?_, ?_⟩
  · intro h
    unfold id_from_serialised
    rw [key x y h]
  · intro h
    exact Bool.noConfusion (congrArg Prod.fst h)
  · unfold id_from_serialised
    rw [key posZero negZero hz]

/-- Witness for C9: the two zeroes, numerically equal with distinct
representations, get one identity. -/
theorem c9_float_text_not_bits_witness :
    id_from_serialised canonicalFloatText posZero
      = id_from_serialised canonicalFloatText negZero :=
  (c9_float_text_not_bits posZero negZero).1
    (by simp [F64.numEq, F64.val, posZero, negZero])

/-- C10 counterexample: `from_gb` is not `1000 * n` for every `n` — the
`usize` multiplication wraps, so at `n = 2^61` the stored amount is `0`,
not `1000 * 2^61`. -/
theorem c10_from_gb_wraps_at_usize :
    (MemoryAmount.from_gb 2305843009213693952).as_mb = 0
    ∧ (1000 : Nat) * 2305843009213693952 ≠ 0 :=
  ⟨by decide, by decide⟩

/-- C10 as amended: gigabytes convert decimally — whenever `1000 * n` fits a
`usize`, `from_gb n` stores exactly `1000 * n` megabytes (factor 1000, not
1024); `from_gb_f64 x` computes `x * 1000.0` in binary64 and rounds that
product (not the exact product) to the nearest integer: for nonnegative `x`
with `x * 1000 ≤ 2^63` the stored amount is within one half of
`roundF64 (x * 1000)`, which itself is within relative error `2^(-53)` of
`x * 1000` once the product reaches one; and the normalizer renders a 4 GB
policy as `4000MB`. -/
theorem c10_memory_units (n : Nat) (x : ℚ) (p : ResourcePolicy)
    (hn : 1000 * n < USIZE) (hx0 : 0 ≤ x) (hx : x * 1000 ≤ 2 ^ 63)
    (hp : p.memory = MemoryAmount.from_gb 4) :
    (MemoryAmount.from_gb n).as_mb = 1000 * n
    ∧ |((MemoryAmount.from_gb_f64 x).as_mb : ℚ) - roundF64 (x * 1000)| ≤ 1 / 2
    ∧ (1 ≤ x * 1000 → |roundF64 (x * 1000) - x * 1000| ≤ x * 1000 / 2 ^ 53)
    ∧ (SlurmResources.new p).memory = "4000MB" := by
  refine ⟨?_, ?_, ?_, ?_⟩
  · show n * 1000 % USIZE = 1000 * n
    rw [mul_comm]
    exact Nat.mod_eq_of_lt hn
  · exact from_gb_f64_close (x * 1000) (by positivity) hx
  · exact fun h1 => roundF64_rel_err (x * 1000) h1
  · show Nat.repr p.memory.as_mb ++ "MB" = "4000MB"
    rw [hp]
    decide

/-- Witness for C10: at 4 GB the store is exactly 4000 MB; at 2.5 GB the
stored amount is within one half of the binary64 product, which is within the
relative bound of 2500; and the concrete 4 GB policy renders as 4000MB. -/
theorem c10_memory_units_witness :
    (MemoryAmount.from_gb 4).as_mb = 1000 * 4
    ∧ |((MemoryAmount.from_gb_f64 (mkRat 5 2)).as_mb : ℚ) - roundF64 (mkRat 5 2 * 1000)| ≤ 1 / 2
    ∧ (1 ≤ (mkRat 5 2 : ℚ) * 1000 →
        |roundF64 (mkRat 5 2 * 1000) - mkRat 5 2 * 1000| ≤ mkRat 5 2 * 1000 / 2 ^ 53)
    ∧ (SlurmResources.new (miniPolicy ⟨false⟩)).memory = "4000MB" :=
  c10_memory_units 4 (mkRat 5 2) (miniPolicy ⟨false⟩) (by decide)
    (by rw [Rat.mkRat_eq_div]; norm_num)
    (by rw [Rat.mkRat_eq_div]; norm_num) rfl

end Labrat
